import Mathlib

/-!
# Verification of the seqr VCF sample-id reconciliation engine

Shallow embedding of `seqr/management/commands/add_vcf.py`:

* `computeEditDistance` embeds `compute_edit_distance` (the numpy two-row
  dynamic-programming sweep, including the exact snapshot semantics of the
  vectorised deletion pass `current_row[1:] = np.minimum(current_row[1:],
  current_row[0:-1] + 1)`, whose right-hand side is evaluated in full before
  the slice assignment).
* `matchVcfIds` embeds `_match_vcf_id_to_sample_id` (the three matching
  stages, the `"placeholder"` sentinel used in validate-only mode, and the
  exceptions Python would raise: the `AttributeError` from taking
  `.individual` of the string `"placeholder"`, the `NameError` from
  appending to the never-initialised `current_lowest_edit_distance_individual`
  variable, and the `KeyError` from `set.remove`).
* `linkDataset` embeds the dataset lookup/create/link portion of
  `Command.handle`.
* `lev` is the classic Levenshtein distance, written from the specification's
  words ("insertion/deletion/substitution each cost 1") for comparison with
  the source-derived `computeEditDistance`.

Python `dict`s become association lists with insert-or-overwrite-in-place
(`dictSet`), Python `set` iteration becomes an explicit list whose order is a
parameter of the run (Python leaves that order unspecified), and Django
querysets become lists of records.
-/

deriving instance DecidableEq for Except

namespace Seqr

/-- An `Individual` row, with its family's project flattened in
(`individual.family.project` in the source is `individual.project` here). -/
structure IndividualRecord where
  individual_id : String
  project : String
deriving DecidableEq

/-- A `Sample` row: `sample_id`, `sample_type`, owning individual. -/
structure SampleRecord where
  sample_id : String
  sample_type : String
  individual : IndividualRecord
deriving DecidableEq

/-- A value of the `vcf_sample_id_to_sample_record` dict: either a real
`Sample` record, or the string `"placeholder"` that the source stores in
validate-only mode. -/
inductive MVal where
  | sample (s : SampleRecord)
  | placeholder
deriving DecidableEq

/-- The Python exceptions the matcher and linker can raise. -/
inductive PyErr where
  | attributeError
  | nameError
  | keyError
  | multipleObjectsReturned
deriving DecidableEq

/-- The `vcf_sample_id_to_sample_record` dict: an ordered association list. -/
abbrev MMap := List (String × MVal)

/-- Python `d[k]` lookup (first — and only, keys are unique — entry wins). -/
def dictGet? : MMap → String → Option MVal
  | [], _ => none
  | (k', v) :: rest, k => if k' = k then some v else dictGet? rest k

/-- Python `d[k] = v`: overwrite in place if the key exists, else append. -/
def dictSet : MMap → String → MVal → MMap
  | [], k, v => [(k, v)]
  | (k', v') :: rest, k, v =>
      if k' = k then (k, v) :: rest else (k', v') :: dictSet rest k v

/-! ## The edit distance of `compute_edit_distance` (lines 245-282)

The numpy loop body is, for each source character `s`:
```
current_row = previous_row + 1
current_row[1:] = np.minimum(current_row[1:], np.add(previous_row[:-1], target != s))
current_row[1:] = np.minimum(current_row[1:], current_row[0:-1] + 1)
```
Each right-hand side is a fully evaluated numpy array before the slice
assignment stores it, so the third line's deletion candidates are taken from
the row as it stood after the second line (no left-to-right cascading).
-/

/-- One iteration of the `for s in source` loop of `compute_edit_distance`. -/
def numpyStep (s : Char) (target : List Char) (previousRow : List Nat) : List Nat :=
  let c1 := previousRow.map (· + 1)
  let subCand := List.zipWith (fun p t => p + (if t = s then 0 else 1)) previousRow.dropLast target
  let c2 := match c1 with
    | [] => []
    | h :: tl => h :: List.zipWith min tl subCand
  match c2 with
  | [] => []
  | h :: tl => h :: List.zipWith min tl (c2.dropLast.map (· + 1))

/-- The body of `compute_edit_distance` after its (single-level) argument swap, i.e. the
body run with `len(source) >= len(target)`. -/
def computeEditDistanceCore (source target : List Char) : Nat :=
  if target.length = 0 then source.length
  else
    (source.foldl (fun prev s => numpyStep s target prev)
      (List.range (target.length + 1))).getLastD 0

/-- Embedding of `compute_edit_distance(source, target)`.  The source swaps its arguments
(one recursive call) whenever `len(source) < len(target)`; that single
unfolding is inlined here. -/
def computeEditDistance (source target : List Char) : Nat :=
  if source.length < target.length then computeEditDistanceCore target source
  else computeEditDistanceCore source target

/-! ## Classic Levenshtein distance, from the specification's words

"computed as classic Levenshtein edit distance (insertion / deletion /
substitution each cost 1)".  Defined with explicit fuel so that it is
structurally recursive and evaluates inside the kernel; `levFuel_sufficient`
shows the fuel never runs out at `lev`'s call site, and the `lev_nil` /
`lev_cons` equations exhibit the textbook recurrence. -/

/-- Fueled classic Levenshtein recurrence. -/
def levFuel : Nat → List Char → List Char → Nat
  | 0, _, _ => 0
  | _ + 1, [], ys => ys.length
  | _ + 1, x :: xs, [] => (x :: xs).length
  | f + 1, x :: xs, y :: ys =>
      min (min (levFuel f xs (y :: ys) + 1) (levFuel f (x :: xs) ys + 1))
        (levFuel f xs ys + (if x = y then 0 else 1))

/-- Classic Levenshtein distance with unit costs. -/
def lev (xs ys : List Char) : Nat := levFuel (xs.length + ys.length + 1) xs ys

theorem levFuel_sufficient (f g : Nat) (xs ys : List Char)
    (hf : xs.length + ys.length < f) (hg : xs.length + ys.length < g) :
    levFuel f xs ys = levFuel g xs ys := by
  induction f generalizing g xs ys with
  | zero => omega
  | succ f ih =>
    match g, xs, ys with
    | g + 1, [], ys => rfl
    | g + 1, x :: xs, [] => rfl
    | g + 1, x :: xs, y :: ys =>
      simp only [levFuel, List.length_cons] at *
      rw [ih g xs (y :: ys) (by simp; omega) (by simp; omega),
        ih g (x :: xs) ys (by simp; omega) (by simp; omega),
        ih g xs ys (by omega) (by omega)]

/-- First base case of the recurrence. -/
theorem lev_nil_left (ys : List Char) : lev [] ys = ys.length := rfl

/-- Second base case of the recurrence. -/
theorem lev_nil_right (xs : List Char) : lev xs [] = xs.length := by
  cases xs <;> rfl

/-- The textbook recurrence step, showing `lev` is the classic Levenshtein
distance. -/
theorem lev_cons (x y : Char) (xs ys : List Char) :
    lev (x :: xs) (y :: ys) =
      min (min (lev xs (y :: ys) + 1) (lev (x :: xs) ys + 1))
        (lev xs ys + (if x = y then 0 else 1)) := by
  show levFuel (xs.length + 1 + (ys.length + 1) + 1) (x :: xs) (y :: ys) = _
  rw [show xs.length + 1 + (ys.length + 1) + 1 = (xs.length + (ys.length + 1) + 1) + 1 from by omega]
  simp only [levFuel, lev, List.length_cons]
  rw [levFuel_sufficient (xs.length + (ys.length + 1) + 1) (xs.length + (ys.length + 1) + 1) xs (y :: ys) (by simp only [List.length_cons]; omega) (by simp only [List.length_cons]; omega),
    levFuel_sufficient (xs.length + (ys.length + 1) + 1) (xs.length + 1 + ys.length + 1) (x :: xs) ys (by simp only [List.length_cons]; omega) (by simp only [List.length_cons]; omega),
    levFuel_sufficient (xs.length + (ys.length + 1) + 1) (xs.length + ys.length + 1) xs ys (by omega) (by omega)]

/-! ## The matcher `_match_vcf_id_to_sample_id` (lines 143-226)

The Python function iterates over `set`s (the VCF ids, the unclaimed
individual-id pool) and over Django querysets; all of those have an
order the language/database does not pin down, so here each one is a list
and the list order stands for one possible iteration order.

State threaded through the stages:

* `mapping` — the `vcf_sample_id_to_sample_record` dict;
* `created` — every `Sample.objects.create(...)` call, in order (a ghost
  trace of the writes);
* `fuzzyMatched` — a ghost trace of the `(vcf id, individual)` pairs the
  fuzzy stage reports as matches (the `logger.info("Match: ...")` call on
  line 197).
-/

/-- Matcher state: the dict plus ghost traces of record creations and of
fuzzy-stage matches. -/
structure MatchState where
  mapping : MMap
  created : List SampleRecord
  fuzzyMatched : List (String × IndividualRecord)
deriving DecidableEq

/-- The dict comprehension `{s.sample_id: s for s in Sample.objects...}`,
restricted to the project and sample type (line 153-155): later queryset
entries overwrite earlier ones, so the last matching record wins. -/
def lookupSample : List SampleRecord → String → String → String → Option SampleRecord
  | [], _, _, _ => none
  | s :: rest, project, sampleType, k =>
      match lookupSample rest project sampleType k with
      | some r => some r
      | none =>
          if s.individual.project = project ∧ s.sample_type = sampleType ∧ s.sample_id = k
          then some s else none

/-- Stage 1 (lines 156-160): bind each VCF id that exactly equals an existing
sample id of this type. -/
def step1 : List String → List SampleRecord → String → String → MMap → MMap
  | [], _, _, _, m => m
  | vid :: rest, samples, project, sampleType, m =>
      match lookupSample samples project sampleType vid with
      | some s => step1 rest samples project sampleType (dictSet m vid (.sample s))
      | none => step1 rest samples project sampleType m

/-- The set difference `vcf_sample_ids_set - set(vcf_sample_id_to_sample_record.keys())`. -/
def remainingIds : List String → MMap → List String
  | [], _ => []
  | vid :: rest, m =>
      if dictGet? m vid = none then vid :: remainingIds rest m else remainingIds rest m

/-- The body of stage 2's `for individual in all_individuals` loop
(lines 166-175): an individual whose `individual_id` is among the remaining
VCF ids binds that id — to `"placeholder"` in validate-only mode, to a newly
created `Sample` otherwise.  `remaining` is fixed before the loop, as in the
source. -/
def step2core : List IndividualRecord → List String → String → Bool → MatchState → MatchState
  | [], _, _, _, st => st
  | ind :: rest, remaining, sampleType, validateOnly, st =>
      if ind.individual_id ∈ remaining then
        if validateOnly then
          step2core rest remaining sampleType validateOnly
            { st with mapping := dictSet st.mapping ind.individual_id .placeholder }
        else
          let ns : SampleRecord := ⟨ind.individual_id, sampleType, ind⟩
          step2core rest remaining sampleType validateOnly
            { st with mapping := dictSet st.mapping ind.individual_id (.sample ns),
                      created := st.created ++ [ns] }
      else step2core rest remaining sampleType validateOnly st

/-- Stage 2 (lines 162-175), including its `if len(remaining) > 0` guard. -/
def step2 (individuals : List IndividualRecord) (remaining : List String)
    (sampleType : String) (validateOnly : Bool) (st : MatchState) : MatchState :=
  if remaining.length > 0 then step2core individuals remaining sampleType validateOnly st
  else st

/-- The comprehension `set(sample.individual.individual_id for sample in mapping.values())`
(line 180).  Taking `.individual` of the string `"placeholder"` raises
`AttributeError`; the generator is consumed in dict order, and building the
set consumes all of it, so any placeholder value raises. -/
def matchedIndividualIds : MMap → Except PyErr (List String)
  | [] => .ok []
  | (_, .placeholder) :: _ => .error .attributeError
  | (_, .sample s) :: rest =>
      match matchedIndividualIds rest with
      | .error e => .error e
      | .ok ids => .ok (s.individual.individual_id :: ids)

/-- Python-set deduplication of the individual-id list (membership is what
matters; this keeps one occurrence of each id). -/
def dedupIds : List String → List String
  | [] => []
  | i :: rest => if i ∈ rest then dedupIds rest else i :: dedupIds rest

/-- Set difference: drop every id that already has a matching sample record. -/
def removeMatched : List String → List String → List String
  | [], _ => []
  | i :: rest, matched =>
      if i ∈ matched then removeMatched rest matched else i :: removeMatched rest matched

/-- The pool `individual_ids_without_matching_sample_record` (lines 180-181): all
individual ids of the project minus those consumed by a match. -/
def step3pool (individuals : List IndividualRecord) (m : MMap) : Except PyErr (List String) :=
  match matchedIndividualIds m with
  | .error e => .error e
  | .ok matched => .ok (removeMatched (dedupIds (individuals.map (·.individual_id))) matched)

/-- Stage-3 loop state.  `singular` is the function-scoped Python variable
`current_lowest_edit_distance_individual` (note the singular name — distinct
from the plural `..._individuals` list that the post-scan tests consult):
`none` means not yet bound, in which state appending to it raises
`NameError`.  It persists across outer-loop iterations.  Its elements are
whatever the leaked stage-2 loop variable `individual` holds, hence
`Option IndividualRecord`. -/
structure FuzzyAcc where
  mapping : MMap
  created : List SampleRecord
  fuzzyMatched : List (String × IndividualRecord)
  pool : List String
  singular : Option (List (Option IndividualRecord))
deriving DecidableEq

/-- The inner `for individual_id in individual_ids_without_matching_sample_record`
scan (lines 186-194) for one VCF id: returns the final
`(current_lowest_edit_distance, current_lowest_edit_distance_individuals,
current_lowest_edit_distance_individual)` triple.  The `n < lowest` branch
rebinds the singular variable to `[individual]`, the `n == lowest` branch
appends to it — raising `NameError` if it was never bound — and neither
branch ever touches the plural list. -/
def fuzzyScan (vid : String) (leaked : Option IndividualRecord) :
    List String → Nat → List (Option IndividualRecord) →
    Option (List (Option IndividualRecord)) →
    Except PyErr (Nat × List (Option IndividualRecord) × Option (List (Option IndividualRecord)))
  | [], lowest, plural, singular => .ok (lowest, plural, singular)
  | iid :: rest, lowest, plural, singular =>
      let n := computeEditDistance vid.toList iid.toList
      if n < lowest then
        fuzzyScan vid leaked rest n plural (some [leaked])
      else if n = lowest then
        match singular with
        | none => .error .nameError
        | some l => fuzzyScan vid leaked rest lowest plural (some (l ++ [leaked]))
      else fuzzyScan vid leaked rest lowest plural singular

/-- One iteration of the outer `for vcf_sample_id in remaining_vcf_sample_ids`
loop (lines 184-208).  After the scan, the source tests the PLURAL list
(lines 196 and 206); `leaked` is the stage-2 loop variable `individual`
referenced inside those branches (line 198/201/204), and `set.remove`
raises `KeyError` when the element is absent. -/
def fuzzyOne (vid : String) (leaked : Option IndividualRecord) (sampleType : String)
    (validateOnly : Bool) (maxED : Nat) (acc : FuzzyAcc) : Except PyErr FuzzyAcc :=
  match fuzzyScan vid leaked acc.pool maxED [] acc.singular with
  | .error e => .error e
  | .ok (_, plural, singular) =>
      if plural.length = 1 then
        match leaked with
        | none => .error .nameError
        | some ind =>
            let acc1 :=
              if validateOnly then
                { acc with singular := singular, fuzzyMatched := acc.fuzzyMatched ++ [(vid, ind)] }
              else
                { acc with
                    mapping := dictSet acc.mapping vid (.sample ⟨vid, sampleType, ind⟩),
                    created := acc.created ++ [⟨vid, sampleType, ind⟩],
                    fuzzyMatched := acc.fuzzyMatched ++ [(vid, ind)],
                    singular := singular }
            if ind.individual_id ∈ acc1.pool then
              .ok { acc1 with pool := acc1.pool.erase ind.individual_id }
            else .error .keyError
      else .ok { acc with singular := singular }

/-- The outer fuzzy loop over the remaining VCF ids. -/
def fuzzyLoop (leaked : Option IndividualRecord) (sampleType : String)
    (validateOnly : Bool) (maxED : Nat) :
    List String → FuzzyAcc → Except PyErr FuzzyAcc
  | [], acc => .ok acc
  | vid :: rest, acc =>
      match fuzzyOne vid leaked sampleType validateOnly maxED acc with
      | .error e => .error e
      | .ok acc' => fuzzyLoop leaked sampleType validateOnly maxED rest acc'

/-- Stage 3 (lines 177-211).  The candidate pool is computed whenever ids
remain (line 179), before the `max_edit_distance > 0` test; the fuzzy loop
itself runs only under the guard on line 183.  `leaked` is the last element
the stage-2 loop bound to `individual` (the queryset is iterated whenever
stage 2 ran; when stage 3's loop body executes, the pool — and hence the
individuals list — is non-empty and stage 2 did run, so the variable is
bound to the last individual). -/
def step3 (individuals : List IndividualRecord) (vcfIds : List String)
    (sampleType : String) (validateOnly : Bool) (maxED : Nat) (st : MatchState) :
    Except PyErr MatchState :=
  let remaining2 := remainingIds vcfIds st.mapping
  if remaining2.length > 0 then
    match step3pool individuals st.mapping with
    | .error e => .error e
    | .ok pool0 =>
        if maxED > 0 ∧ remaining2 ≠ [] ∧ pool0 ≠ [] then
          match fuzzyLoop individuals.getLast? sampleType validateOnly maxED remaining2
              ⟨st.mapping, st.created, st.fuzzyMatched, pool0, none⟩ with
          | .error e => .error e
          | .ok acc => .ok ⟨acc.mapping, acc.created, acc.fuzzyMatched⟩
        else .ok st
  else .ok st

/-- Stage-1 result as a named pipeline stage. -/
def matcherStage1 (vcfIds : List String) (samples : List SampleRecord)
    (project sampleType : String) : MMap :=
  step1 vcfIds samples project sampleType []

/-- State after stages 1 and 2. -/
def matcherStage2 (vcfIds : List String) (samples : List SampleRecord)
    (individuals : List IndividualRecord) (project sampleType : String)
    (validateOnly : Bool) : MatchState :=
  let m1 := matcherStage1 vcfIds samples project sampleType
  step2 individuals (remainingIds vcfIds m1) sampleType validateOnly ⟨m1, [], []⟩

/-- The full three-stage matcher `_match_vcf_id_to_sample_id`. -/
def matchVcfIds (vcfIds : List String) (samples : List SampleRecord)
    (individuals : List IndividualRecord) (project sampleType : String)
    (validateOnly : Bool) (maxED : Nat) : Except PyErr MatchState :=
  step3 individuals vcfIds sampleType validateOnly maxED
    (matcherStage2 vcfIds samples individuals project sampleType validateOnly)

/-! ## The dataset lookup/create/link portion of `Command.handle` (lines 71-120)

A `Dataset` row owns a many-to-many set of samples; `dataset.samples.add`
is a no-op on an already-linked sample.  `Dataset.objects.get(id__in=...)`
raises `ObjectDoesNotExist` (caught: line 85/109) when nothing matches and
`MultipleObjectsReturned` (uncaught) when several do.  `_load_dataset` only
logs, so it contributes nothing to the state. -/

/-- A `Dataset` row.  `did` is the primary key. -/
structure DatasetRec where
  did : Nat
  analysis_type : String
  source_file_path : String
  is_loaded : Bool
  samples : List SampleRecord
deriving DecidableEq

/-- The record store: all dataset rows plus the next free primary key. -/
structure DBState where
  datasets : List DatasetRec
  nextId : Nat
deriving DecidableEq

/-- The filter
`Dataset.objects.filter(analysis_type=…, source_file_path=…,
samples__individual__family__project=project)` (lines 74-77 / 104-107). -/
def matchingDatasets : List DatasetRec → String → String → String → List DatasetRec
  | [], _, _, _ => []
  | d :: rest, analysisType, path, project =>
      if d.analysis_type = analysisType ∧ d.source_file_path = path ∧
          ∃ s ∈ d.samples, s.individual.project = project
      then d :: matchingDatasets rest analysisType path project
      else matchingDatasets rest analysisType path project

/-- Django `Dataset.objects.get(id__in=…)`: none matching → `ObjectDoesNotExist`
(returned as `none`, the source catches it), several → uncaught
`MultipleObjectsReturned`. -/
def getDataset (st : DBState) (analysisType path project : String) :
    Except PyErr (Option DatasetRec) :=
  match matchingDatasets st.datasets analysisType path project with
  | [] => .ok none
  | [d] => .ok (some d)
  | _ :: _ :: _ => .error .multipleObjectsReturned

/-- Set-union semantics of `dataset.samples.add(sample)`. -/
def addSample (samples : List SampleRecord) (s : SampleRecord) : List SampleRecord :=
  if s ∈ samples then samples else samples ++ [s]

/-- The `for sample_id, sample in vcf_sample_id_to_sample_record.items():
dataset.samples.add(sample)` loop (lines 116-117). -/
def linkAll : List (String × SampleRecord) → List SampleRecord → List SampleRecord
  | [], acc => acc
  | p :: rest, acc => linkAll rest (addSample acc p.2)

/-- Persist an updated dataset row (same primary key) into the store. -/
def setDataset : List DatasetRec → DatasetRec → List DatasetRec
  | [], _ => []
  | d :: rest, d' =>
      if d.did = d'.did then d' :: setDataset rest d' else d :: setDataset rest d'

/-- Lines 100-120: if any ids matched, find-or-create the dataset row and
link every matched sample to it. -/
def linkPart2 (st : DBState) (analysisType path project : String)
    (mapping : List (String × SampleRecord)) : Except PyErr DBState :=
  if mapping.length > 0 then
    match getDataset st analysisType path project with
    | .error e => .error e
    | .ok (some d) =>
        let d' : DatasetRec := { d with samples := linkAll mapping d.samples }
        .ok { st with datasets := setDataset st.datasets d' }
    | .ok none =>
        let d : DatasetRec := ⟨st.nextId, analysisType, path, false, []⟩
        .ok { datasets := st.datasets ++ [{ d with samples := linkAll mapping d.samples }],
              nextId := st.nextId + 1 }
  else .ok st

/-- Lines 71-120 of `Command.handle` for a fixed matched mapping: the
already-fully-loaded short-circuit (lines 72-84), then find-or-create and
link (lines 100-120).  `vcf_sample_ids` is rebound on line 80 to the
mapping's key set, so the short-circuit compares mapping keys against the
sample ids already linked to the dataset. -/
def linkDataset (st : DBState) (analysisType path project : String)
    (mapping : List (String × SampleRecord)) : Except PyErr DBState :=
  match getDataset st analysisType path project with
  | .error e => .error e
  | .ok (some d) =>
      if d.is_loaded = true ∧ ∀ k ∈ mapping.map (·.1), k ∈ d.samples.map (·.sample_id)
      then .ok st
      else linkPart2 st analysisType path project mapping
  | .ok none => linkPart2 st analysisType path project mapping

/-! ## Dictionary and stage lemmas -/

theorem dictGet?_dictSet_self (m : MMap) (k : String) (v : MVal) :
    dictGet? (dictSet m k v) k = some v := by
  induction m with
  | nil => simp [dictSet, dictGet?]
  | cons p rest ih =>
    obtain ⟨k', v'⟩ := p
    by_cases h : k' = k
    · subst h; simp [dictSet, dictGet?]
    · simp [dictSet, dictGet?, h, ih]

theorem dictGet?_dictSet_other (m : MMap) (k k' : String) (v : MVal) (h : k' ≠ k) :
    dictGet? (dictSet m k' v) k = dictGet? m k := by
  induction m with
  | nil => simp [dictSet, dictGet?, h]
  | cons p rest ih =>
    obtain ⟨k'', v''⟩ := p
    by_cases h2 : k'' = k'
    · subst h2; simp [dictSet, dictGet?, h]
    · simp [dictSet, dictGet?, h2, ih]

theorem dictGet?_mem (m : MMap) (k : String) (v : MVal) (h : dictGet? m k = some v) :
    (k, v) ∈ m := by
  induction m with
  | nil => simp [dictGet?] at h
  | cons p rest ih =>
    obtain ⟨k', v'⟩ := p
    rw [dictGet?] at h
    split at h
    next heq =>
      injection h with h
      subst heq; subst h
      exact List.mem_cons_self _ _
    next => exact List.mem_cons_of_mem _ (ih h)

theorem mem_remainingIds (l : List String) (m : MMap) (vid : String) :
    vid ∈ remainingIds l m ↔ vid ∈ l ∧ dictGet? m vid = none := by
  induction l with
  | nil => simp [remainingIds]
  | cons a rest ih =>
    by_cases h : dictGet? m a = none
    · rw [remainingIds, if_pos h]
      by_cases hva : vid = a
      · subst hva; simp [h]
      · simp [List.mem_cons, hva, ih]
    · rw [remainingIds, if_neg h]
      by_cases hva : vid = a
      · subst hva; simp [ih, h]
      · simp [List.mem_cons, hva, ih]

theorem step1_binds (samples : List SampleRecord) (project sampleType vid : String)
    (s : SampleRecord) (hs : lookupSample samples project sampleType vid = some s) :
    ∀ (l : List String) (m : MMap),
      (vid ∈ l ∨ dictGet? m vid = some (MVal.sample s)) →
      dictGet? (step1 l samples project sampleType m) vid = some (MVal.sample s) := by
  intro l
  induction l with
  | nil =>
    intro m hm
    rcases hm with hm | hm
    · exact absurd hm (List.not_mem_nil vid)
    · simpa [step1] using hm
  | cons a rest ih =>
    intro m hm
    rw [step1]
    split
    next s' hla =>
      apply ih
      by_cases hva : a = vid
      · subst hva
        rw [hs] at hla
        injection hla with hla
        subst hla
        exact Or.inr (dictGet?_dictSet_self m a (MVal.sample s))
      · rcases hm with hm | hm
        · rcases List.mem_cons.mp hm with h | h
          · exact absurd h.symm hva
          · exact Or.inl h
        · rw [← dictGet?_dictSet_other m vid a (MVal.sample s') hva] at hm
          exact Or.inr hm
    next hla =>
      apply ih
      rcases hm with hm | hm
      · rcases List.mem_cons.mp hm with h | h
        · subst h; rw [hla] at hs; exact Option.noConfusion hs
        · exact Or.inl h
      · exact Or.inr hm

theorem step2core_mapping_other (inds : List IndividualRecord) (remaining : List String)
    (sampleType : String) (validateOnly : Bool) (st : MatchState) (vid : String)
    (hnot : vid ∉ remaining) :
    dictGet? (step2core inds remaining sampleType validateOnly st).mapping vid =
      dictGet? st.mapping vid := by
  induction inds generalizing st with
  | nil => rfl
  | cons ind rest ih =>
    rw [step2core]
    split
    next hmem =>
      have hne : ind.individual_id ≠ vid := fun h => hnot (h ▸ hmem)
      split
      · rw [ih]
        exact dictGet?_dictSet_other st.mapping vid ind.individual_id MVal.placeholder hne
      · rw [ih]
        exact dictGet?_dictSet_other st.mapping vid ind.individual_id
          (MVal.sample ⟨ind.individual_id, sampleType, ind⟩) hne
    next => exact ih st

theorem step2core_created_ids (inds : List IndividualRecord) (remaining : List String)
    (sampleType : String) (validateOnly : Bool) (st : MatchState) :
    ∀ c ∈ (step2core inds remaining sampleType validateOnly st).created,
      c ∈ st.created ∨ c.sample_id ∈ remaining := by
  induction inds generalizing st with
  | nil => exact fun c hc => Or.inl hc
  | cons ind rest ih =>
    rw [step2core]
    split
    next hmem =>
      split
      · exact ih _
      · intro c hc
        rcases ih _ c hc with h | h
        · rcases List.mem_append.mp h with h | h
          · exact Or.inl h
          · rcases List.mem_singleton.mp h with h
            subst h
            exact Or.inr hmem
        · exact Or.inr h
    next => exact ih st

theorem step2core_fuzzy (inds : List IndividualRecord) (remaining : List String)
    (sampleType : String) (validateOnly : Bool) (st : MatchState) :
    (step2core inds remaining sampleType validateOnly st).fuzzyMatched = st.fuzzyMatched := by
  induction inds generalizing st with
  | nil => rfl
  | cons ind rest ih =>
    rw [step2core]
    split
    · split
      · exact ih _
      · exact ih _
    · exact ih st

theorem step2core_placeholder (base : MMap) (remaining : List String) (sampleType : String) :
    ∀ (inds : List IndividualRecord) (st : MatchState),
      (∀ v w, dictGet? base v = none → dictGet? st.mapping v = some w → w = MVal.placeholder) →
      ∀ v w, dictGet? base v = none →
        dictGet? (step2core inds remaining sampleType true st).mapping v = some w →
        w = MVal.placeholder := by
  intro inds
  induction inds with
  | nil => exact fun st h => h
  | cons ind rest ih =>
    intro st hbase
    rw [step2core]
    split
    next hmem =>
      rw [if_pos rfl]
      apply ih
      intro v w hv hw
      by_cases hvi : ind.individual_id = v
      · subst hvi
        rw [dictGet?_dictSet_self] at hw
        injection hw with hw
        exact hw.symm
      · rw [dictGet?_dictSet_other _ _ _ _ hvi] at hw
        exact hbase v w hv hw
    next => exact ih st hbase

theorem matchedIndividualIds_of_placeholder (m : MMap) (k : String)
    (h : dictGet? m k = some MVal.placeholder) :
    matchedIndividualIds m = .error .attributeError := by
  induction m with
  | nil => simp [dictGet?] at h
  | cons p rest ih =>
    obtain ⟨k', v⟩ := p
    cases v with
    | placeholder => rfl
    | sample s =>
      have hrest : dictGet? rest k = some MVal.placeholder := by
        rw [dictGet?] at h
        split at h
        · exact absurd h (by simp)
        · exact h
      rw [matchedIndividualIds, ih hrest]

theorem matchedIndividualIds_complete (m : MMap) (ids : List String)
    (h : matchedIndividualIds m = .ok ids) (k : String) (s : SampleRecord)
    (hmem : (k, MVal.sample s) ∈ m) : s.individual.individual_id ∈ ids := by
  induction m generalizing ids with
  | nil => exact absurd hmem (List.not_mem_nil _)
  | cons p rest ih =>
    obtain ⟨k', v'⟩ := p
    cases v' with
    | placeholder => exact Except.noConfusion h
    | sample s' =>
      rw [matchedIndividualIds] at h
      split at h
      · exact Except.noConfusion h
      next ids' heq =>
        injection h with h
        subst h
        rcases List.mem_cons.mp hmem with hm | hm
        · rw [Prod.mk.injEq] at hm
          obtain ⟨-, hv⟩ := hm
          injection hv with hv
          rw [hv]
          exact List.mem_cons_self _ _
        · exact List.mem_cons_of_mem _ (ih ids' heq hm)

theorem removeMatched_not_matched (l matched : List String) (i : String)
    (h : i ∈ removeMatched l matched) : i ∉ matched := by
  induction l with
  | nil => simp [removeMatched] at h
  | cons a rest ih =>
    rw [removeMatched] at h
    split at h
    · exact ih h
    next hnot =>
      rcases List.mem_cons.mp h with h | h
      · exact h ▸ hnot
      · exact ih h

/-! ## The fuzzy stage is inert: the plural candidate list is never filled -/

theorem fuzzyScan_plural (vid : String) (leaked : Option IndividualRecord)
    (pool : List String) (lowest : Nat) (plural : List (Option IndividualRecord))
    (singular : Option (List (Option IndividualRecord)))
    (low : Nat) (pl : List (Option IndividualRecord))
    (sg : Option (List (Option IndividualRecord)))
    (h : fuzzyScan vid leaked pool lowest plural singular = .ok (low, pl, sg)) :
    pl = plural := by
  induction pool generalizing lowest singular with
  | nil =>
    simp only [fuzzyScan, Except.ok.injEq, Prod.mk.injEq] at h
    exact h.2.1.symm
  | cons iid rest ih =>
    simp only [fuzzyScan] at h
    split at h
    · exact ih _ _ h
    · split at h
      · split at h
        · exact Except.noConfusion h
        · exact ih _ _ h
      · exact ih _ _ h

theorem fuzzyOne_ok (vid : String) (leaked : Option IndividualRecord)
    (sampleType : String) (validateOnly : Bool) (maxED : Nat) (acc acc' : FuzzyAcc)
    (h : fuzzyOne vid leaked sampleType validateOnly maxED acc = .ok acc') :
    acc'.mapping = acc.mapping ∧ acc'.created = acc.created ∧
      acc'.fuzzyMatched = acc.fuzzyMatched ∧ acc'.pool = acc.pool := by
  rw [fuzzyOne] at h
  split at h
  · exact Except.noConfusion h
  next low pl sg heq =>
    have hpl : pl = [] := fuzzyScan_plural _ _ _ _ _ _ _ _ _ heq
    subst hpl
    rw [if_neg (by simp)] at h
    injection h with h
    subst h
    exact ⟨rfl, rfl, rfl, rfl⟩

theorem fuzzyLoop_ok (leaked : Option IndividualRecord) (sampleType : String)
    (validateOnly : Bool) (maxED : Nat) (l : List String) (acc acc' : FuzzyAcc)
    (h : fuzzyLoop leaked sampleType validateOnly maxED l acc = .ok acc') :
    acc'.mapping = acc.mapping ∧ acc'.created = acc.created ∧
      acc'.fuzzyMatched = acc.fuzzyMatched := by
  induction l generalizing acc with
  | nil =>
    simp only [fuzzyLoop, Except.ok.injEq] at h
    subst h
    exact ⟨rfl, rfl, rfl⟩
  | cons vid rest ih =>
    rw [fuzzyLoop] at h
    split at h
    · exact Except.noConfusion h
    next acc1 heq =>
      obtain ⟨h1, h2, h3, -⟩ := fuzzyOne_ok _ _ _ _ _ _ _ heq
      obtain ⟨g1, g2, g3⟩ := ih _ h
      exact ⟨g1.trans h1, g2.trans h2, g3.trans h3⟩

theorem step3_ok (individuals : List IndividualRecord) (vcfIds : List String)
    (sampleType : String) (validateOnly : Bool) (maxED : Nat) (st res : MatchState)
    (h : step3 individuals vcfIds sampleType validateOnly maxED st = .ok res) :
    res.mapping = st.mapping ∧ res.created = st.created ∧
      res.fuzzyMatched = st.fuzzyMatched := by
  rw [step3] at h
  split at h
  · split at h
    · exact Except.noConfusion h
    · split at h
      · split at h
        · exact Except.noConfusion h
        next acc heq =>
          injection h with h
          subst h
          obtain ⟨h1, h2, h3⟩ := fuzzyLoop_ok _ _ _ _ _ _ _ heq
          exact ⟨h1, h2, h3⟩
      · injection h with h
        subst h
        exact ⟨rfl, rfl, rfl⟩
  · injection h with h
    subst h
    exact ⟨rfl, rfl, rfl⟩

theorem step3_attr_error (individuals : List IndividualRecord) (vcfIds : List String)
    (sampleType : String) (validateOnly : Bool) (maxED : Nat) (st : MatchState) (k : String)
    (hk : dictGet? st.mapping k = some MVal.placeholder)
    (hrem : remainingIds vcfIds st.mapping ≠ []) :
    step3 individuals vcfIds sampleType validateOnly maxED st = .error .attributeError := by
  have hlen : 0 < (remainingIds vcfIds st.mapping).length := List.length_pos.mpr hrem
  rw [step3]
  simp only [hlen, if_true, gt_iff_lt, step3pool,
    matchedIndividualIds_of_placeholder st.mapping k hk]

/-! ## Claim theorems: concrete evaluations -/

/-- C1: the specification says that when exactly one unclaimed individual id
achieves the minimum edit distance and that minimum is strictly below
`max_edit_distance`, the external id is bound to that individual.  On
Scenario B's own input (external id "S1x", individuals "S1" and "S9",
threshold 2, unique minimum distance 1 achieved by "S1") the code instead
returns an empty mapping, creating nothing: the loop stores its candidates
in the singular-named variable while the match test reads the plural-named
list, which stays empty, so the fuzzy stage never binds anything. -/
theorem c1_unique_fuzzy_minimum_not_bound :
    matchVcfIds ["S1x"] [] [⟨"S1", "P"⟩, ⟨"S9", "P"⟩] "P" "WES" false 2 =
      .ok ⟨[], [], []⟩ ∧
    computeEditDistance "S1x".toList "S1".toList = 1 ∧
    computeEditDistance "S1x".toList "S9".toList = 2 := by decide

/-- C2: the specification says a best distance that only ties the threshold
is rejected quietly (reported, no error).  On Scenario D's input (external
id "S1x", lone candidate "S1" at distance 1, threshold 1) the first
candidate examined hits the `n == current_lowest_edit_distance` branch
before the singular candidate variable was ever bound, so the matcher
raises `NameError` instead of returning. -/
theorem c2_threshold_tie_raises_name_error :
    matchVcfIds ["S1x"] [] [⟨"S1", "P"⟩] "P" "WES" false 1 = .error .nameError ∧
    computeEditDistance "S1x".toList "S1".toList = 1 := by decide

/-- C3: the specification says a validate-only run returns a report of what
would have matched.  With external ids {"A","B"} and individual "A", stage 2
binds "A" to the string `"placeholder"`, and because "B" is still unmatched
stage 3 computes the unclaimed pool by taking `.individual` of every mapping
value — including the string — so the matcher raises `AttributeError`
instead of returning any result. -/
theorem c3_dry_run_crashes_with_attribute_error :
    matchVcfIds ["A", "B"] [] [⟨"A", "P"⟩] "P" "WES" true 0 =
      .error .attributeError := by decide

/-- C6: Scenario A.  Individuals {"S1","S2","S3"}, no existing samples,
external ids {"S1","S2"}, `max_edit_distance = 0`, not a dry run: exactly
two samples are created and bound (S1 to individual S1, S2 to individual
S2), S3 is consumed by nothing, and no external id is left unmatched. -/
theorem c6_scenario_a_exact_individual_matches :
    matchVcfIds ["S1", "S2"] [] [⟨"S1", "P"⟩, ⟨"S2", "P"⟩, ⟨"S3", "P"⟩] "P" "WES" false 0 =
      .ok ⟨[("S1", .sample ⟨"S1", "WES", ⟨"S1", "P"⟩⟩),
            ("S2", .sample ⟨"S2", "WES", ⟨"S2", "P"⟩⟩)],
           [⟨"S1", "WES", ⟨"S1", "P"⟩⟩, ⟨"S2", "WES", ⟨"S2", "P"⟩⟩], []⟩ ∧
    remainingIds ["S1", "S2"]
      [("S1", .sample ⟨"S1", "WES", ⟨"S1", "P"⟩⟩),
       ("S2", .sample ⟨"S2", "WES", ⟨"S2", "P"⟩⟩)] = [] ∧
    (∀ c ∈ [SampleRecord.mk "S1" "WES" ⟨"S1", "P"⟩, SampleRecord.mk "S2" "WES" ⟨"S2", "P"⟩],
      c.individual.individual_id ≠ "S3") := by decide

/-- C9: the matcher's outcome is not independent of the iteration order over
the unclaimed-candidate set (a Python `set`, whose order is unspecified).
With external id "ab", candidates {"abcd","abc"} (distances 2 and 1) and
threshold 2, one ordering of the same candidate set makes the first
examined candidate tie the running minimum before the singular variable is
bound — raising `NameError` — while the other ordering returns normally. -/
theorem c9_outcome_depends_on_set_iteration_order :
    matchVcfIds ["ab"] [] [⟨"abcd", "P"⟩, ⟨"abc", "P"⟩] "P" "WES" false 2 =
      .error .nameError ∧
    matchVcfIds ["ab"] [] [⟨"abc", "P"⟩, ⟨"abcd", "P"⟩] "P" "WES" false 2 =
      .ok ⟨[], [], []⟩ ∧
    [IndividualRecord.mk "abcd" "P", IndividualRecord.mk "abc" "P"].Perm
      [IndividualRecord.mk "abc" "P", IndividualRecord.mk "abcd" "P"] := by decide

/-- C10: `compute_edit_distance` is not the classic Levenshtein distance.
The vectorised deletion pass uses the pre-assignment row (numpy evaluates
`current_row[0:-1] + 1` before the slice assignment), so deletion chains of
length two are missed: on ("aabba","bbacc") the code returns 5 where the
classic distance is 4, and swapping the (equal-length, so never
auto-swapped) arguments returns 4 — the function is not even symmetric. -/
theorem c10_not_classic_levenshtein :
    computeEditDistance "aabba".toList "bbacc".toList = 5 ∧
    lev "aabba".toList "bbacc".toList = 4 ∧
    lev "bbacc".toList "aabba".toList = 4 ∧
    computeEditDistance "bbacc".toList "aabba".toList = 4 := by decide

/-! ## Claim theorems: general properties of the matcher -/

/-- C4: in validate-only mode every external id matched in stage 2 is
recorded as the `"placeholder"` sentinel (first conjunct), and whenever at
least one id was matched in stage 2 and at least one id is still unmatched
afterwards, stage 3's candidate-pool computation takes `.individual` of
that string and the matcher raises `AttributeError` instead of returning
(second conjunct). -/
theorem c4_placeholder_sentinel_crashes_dry_run
    (vcfIds : List String) (samples : List SampleRecord)
    (individuals : List IndividualRecord) (project sampleType : String) (maxED : Nat)
    (hplace : ∃ k, dictGet? (matcherStage2 vcfIds samples individuals project sampleType
      true).mapping k = some MVal.placeholder)
    (hrem : remainingIds vcfIds (matcherStage2 vcfIds samples individuals project sampleType
      true).mapping ≠ []) :
    (∀ v w, dictGet? (matcherStage1 vcfIds samples project sampleType) v = none →
        dictGet? (matcherStage2 vcfIds samples individuals project sampleType true).mapping v =
          some w →
        w = MVal.placeholder) ∧
    matchVcfIds vcfIds samples individuals project sampleType true maxED =
      .error .attributeError := by
  constructor
  · intro v w hv hw
    have hw' : dictGet? (step2 individuals
        (remainingIds vcfIds (matcherStage1 vcfIds samples project sampleType)) sampleType true
        ⟨matcherStage1 vcfIds samples project sampleType, [], []⟩).mapping v = some w := hw
    rw [step2] at hw'
    split at hw'
    · refine step2core_placeholder (matcherStage1 vcfIds samples project sampleType) _ _
        individuals _ ?_ v w hv hw'
      intro v' w' hv' hw'
      rw [hv'] at hw'
      exact Option.noConfusion hw'
    · rw [hv] at hw'
      exact Option.noConfusion hw'
  · obtain ⟨k, hk⟩ := hplace
    exact step3_attr_error individuals vcfIds sampleType true maxED _ k hk hrem

/-- C4 witness: external ids {"A","B"}, individual "A", validate-only.  Both
hypotheses hold and the theorem applies. -/
theorem c4_placeholder_sentinel_crashes_dry_run_witness :
    (∃ k, dictGet? (matcherStage2 ["A", "B"] [] [⟨"A", "P"⟩] "P" "WES" true).mapping k =
      some MVal.placeholder) ∧
    matchVcfIds ["A", "B"] [] [⟨"A", "P"⟩] "P" "WES" true 0 = .error .attributeError := by
  refine ⟨⟨"A", by decide⟩, ?_⟩
  exact (c4_placeholder_sentinel_crashes_dry_run ["A", "B"] [] [⟨"A", "P"⟩] "P" "WES" 0
    ⟨"A", by decide⟩ (by decide)).2

/-- C5: an external id that verbatim equals an existing sample id of the
requested sample type in the project is bound to that existing record, and
no record is created for it — in particular the fuzzy stage never touches
it, whatever `max_edit_distance` is. -/
theorem c5_exact_sample_id_match_preferred
    (vcfIds : List String) (samples : List SampleRecord) (individuals : List IndividualRecord)
    (project sampleType : String) (validateOnly : Bool) (maxED : Nat)
    (res : MatchState) (vid : String) (s : SampleRecord)
    (hres : matchVcfIds vcfIds samples individuals project sampleType validateOnly maxED =
      .ok res)
    (hvid : vid ∈ vcfIds)
    (hs : lookupSample samples project sampleType vid = some s) :
    dictGet? res.mapping vid = some (MVal.sample s) ∧ ∀ c ∈ res.created, c.sample_id ≠ vid := by
  have h1 : dictGet? (matcherStage1 vcfIds samples project sampleType) vid =
      some (MVal.sample s) :=
    step1_binds samples project sampleType vid s hs vcfIds [] (Or.inl hvid)
  have hnotrem : vid ∉ remainingIds vcfIds (matcherStage1 vcfIds samples project sampleType) := by
    rw [mem_remainingIds]
    rintro ⟨-, hnone⟩
    rw [h1] at hnone
    exact Option.noConfusion hnone
  have h2map : dictGet? (matcherStage2 vcfIds samples individuals project sampleType
      validateOnly).mapping vid = some (MVal.sample s) := by
    show dictGet? (step2 individuals
      (remainingIds vcfIds (matcherStage1 vcfIds samples project sampleType)) sampleType
      validateOnly ⟨matcherStage1 vcfIds samples project sampleType, [], []⟩).mapping vid = _
    rw [step2]
    split
    · rw [step2core_mapping_other individuals _ sampleType validateOnly _ vid hnotrem]
      exact h1
    · exact h1
  have h2created : ∀ c ∈ (matcherStage2 vcfIds samples individuals project sampleType
      validateOnly).created, c.sample_id ≠ vid := by
    show ∀ c ∈ (step2 individuals
      (remainingIds vcfIds (matcherStage1 vcfIds samples project sampleType)) sampleType
      validateOnly ⟨matcherStage1 vcfIds samples project sampleType, [], []⟩).created, _
    rw [step2]
    split
    · intro c hc
      rcases step2core_created_ids individuals _ sampleType validateOnly _ c hc with h | h
      · exact absurd h (List.not_mem_nil c)
      · intro he
        rw [he] at h
        exact hnotrem h
    · intro c hc
      exact absurd hc (List.not_mem_nil c)
  have hres' : step3 individuals vcfIds sampleType validateOnly maxED
      (matcherStage2 vcfIds samples individuals project sampleType validateOnly) = .ok res := hres
  obtain ⟨hm, hcr, -⟩ := step3_ok individuals vcfIds sampleType validateOnly maxED _ res hres'
  rw [hm, hcr]
  exact ⟨h2map, h2created⟩

/-- C5 witness: a project with an existing "X" WES sample; the external id
"X" binds to it with nothing created, fuzzy threshold 5 notwithstanding. -/
theorem c5_exact_sample_id_match_preferred_witness :
    matchVcfIds ["X"] [⟨"X", "WES", ⟨"I1", "P"⟩⟩] [⟨"I1", "P"⟩] "P" "WES" false 5 =
      .ok ⟨[("X", .sample ⟨"X", "WES", ⟨"I1", "P"⟩⟩)], [], []⟩ ∧
    dictGet? [("X", MVal.sample ⟨"X", "WES", ⟨"I1", "P"⟩⟩)] "X" =
      some (MVal.sample ⟨"X", "WES", ⟨"I1", "P"⟩⟩) := by
  refine ⟨by decide, ?_⟩
  exact (c5_exact_sample_id_match_preferred ["X"] [⟨"X", "WES", ⟨"I1", "P"⟩⟩] [⟨"I1", "P"⟩]
    "P" "WES" false 5 ⟨[("X", .sample ⟨"X", "WES", ⟨"I1", "P"⟩⟩)], [], []⟩ "X"
    ⟨"X", "WES", ⟨"I1", "P"⟩⟩ (by decide) (by decide) (by decide)).1

/-- C7: within one invocation no individual is the fuzzy-match target of two
different external ids (first conjunct — in this code the fuzzy stage in
fact never reports any match, so the trace is duplicate-free), and every
individual already consumed by a stage-1 or stage-2 match is excluded from
the fuzzy candidate pool computed for stage 3 (second conjunct). -/
theorem c7_at_most_one_fuzzy_consumption
    (vcfIds : List String) (samples : List SampleRecord) (individuals : List IndividualRecord)
    (project sampleType : String) (validateOnly : Bool) (maxED : Nat) (res : MatchState)
    (hres : matchVcfIds vcfIds samples individuals project sampleType validateOnly maxED =
      .ok res) :
    (∀ v1 v2 i, (v1, i) ∈ res.fuzzyMatched → (v2, i) ∈ res.fuzzyMatched → v1 = v2) ∧
    (∀ pool0, step3pool individuals (matcherStage2 vcfIds samples individuals project
        sampleType validateOnly).mapping = .ok pool0 →
      ∀ k s, dictGet? (matcherStage2 vcfIds samples individuals project sampleType
          validateOnly).mapping k = some (MVal.sample s) →
        s.individual.individual_id ∉ pool0) := by
  constructor
  · have hres' : step3 individuals vcfIds sampleType validateOnly maxED
        (matcherStage2 vcfIds samples individuals project sampleType validateOnly) =
        .ok res := hres
    obtain ⟨-, -, hf⟩ := step3_ok individuals vcfIds sampleType validateOnly maxED _ res hres'
    have hfz : (matcherStage2 vcfIds samples individuals project sampleType
        validateOnly).fuzzyMatched = [] := by
      show (step2 individuals
        (remainingIds vcfIds (matcherStage1 vcfIds samples project sampleType)) sampleType
        validateOnly ⟨matcherStage1 vcfIds samples project sampleType, [], []⟩).fuzzyMatched = []
      rw [step2]
      split
      · exact step2core_fuzzy individuals _ sampleType validateOnly _
      · rfl
    intro v1 v2 i h1 h2
    rw [hf, hfz] at h1
    exact absurd h1 (List.not_mem_nil _)
  · intro pool0 hpool k s hk
    rw [step3pool] at hpool
    split at hpool
    · exact Except.noConfusion hpool
    next matched heq =>
      injection hpool with hpool
      subst hpool
      intro hmem
      exact removeMatched_not_matched _ _ _ hmem
        (matchedIndividualIds_complete _ _ heq k s (dictGet?_mem _ _ _ hk))

/-- C7 witness: Scenario-A-like input; the theorem applies to its successful
run. -/
theorem c7_at_most_one_fuzzy_consumption_witness :
    matchVcfIds ["S1"] [] [⟨"S1", "P"⟩] "P" "WES" false 0 =
      .ok ⟨[("S1", .sample ⟨"S1", "WES", ⟨"S1", "P"⟩⟩)], [⟨"S1", "WES", ⟨"S1", "P"⟩⟩], []⟩ ∧
    (∀ v1 v2 i,
      (v1, i) ∈ (MatchState.mk [("S1", .sample ⟨"S1", "WES", ⟨"S1", "P"⟩⟩)]
        [⟨"S1", "WES", ⟨"S1", "P"⟩⟩] []).fuzzyMatched →
      (v2, i) ∈ (MatchState.mk [("S1", .sample ⟨"S1", "WES", ⟨"S1", "P"⟩⟩)]
        [⟨"S1", "WES", ⟨"S1", "P"⟩⟩] []).fuzzyMatched → v1 = v2) := by
  refine ⟨by decide, ?_⟩
  exact (c7_at_most_one_fuzzy_consumption ["S1"] [] [⟨"S1", "P"⟩] "P" "WES" false 0
    ⟨[("S1", .sample ⟨"S1", "WES", ⟨"S1", "P"⟩⟩)], [⟨"S1", "WES", ⟨"S1", "P"⟩⟩], []⟩
    (by decide)).1

/-! ## Linker lemmas -/

theorem mem_matchingDatasets (l : List DatasetRec) (a p proj : String) (d : DatasetRec) :
    d ∈ matchingDatasets l a p proj ↔
      d ∈ l ∧ d.analysis_type = a ∧ d.source_file_path = p ∧
        ∃ s ∈ d.samples, s.individual.project = proj := by
  induction l with
  | nil => simp [matchingDatasets]
  | cons x rest ih =>
    rw [matchingDatasets]
    split
    next hx =>
      constructor
      · intro hm
        rcases List.mem_cons.mp hm with hm | hm
        · subst hm; exact ⟨List.mem_cons_self _ _, hx⟩
        · obtain ⟨h1, h2⟩ := ih.mp hm
          exact ⟨List.mem_cons_of_mem _ h1, h2⟩
      · rintro ⟨hm, hd⟩
        rcases List.mem_cons.mp hm with hm | hm
        · subst hm; exact List.mem_cons_self _ _
        · exact List.mem_cons_of_mem _ (ih.mpr ⟨hm, hd⟩)
    next hx =>
      constructor
      · intro hm
        obtain ⟨h1, h2⟩ := ih.mp hm
        exact ⟨List.mem_cons_of_mem _ h1, h2⟩
      · rintro ⟨hm, hd⟩
        rcases List.mem_cons.mp hm with hm | hm
        · subst hm; exact absurd hd hx
        · exact ih.mpr ⟨hm, hd⟩

theorem matchingDatasets_append (l1 l2 : List DatasetRec) (a p proj : String) :
    matchingDatasets (l1 ++ l2) a p proj =
      matchingDatasets l1 a p proj ++ matchingDatasets l2 a p proj := by
  induction l1 with
  | nil => rfl
  | cons x rest ih =>
    rw [List.cons_append, matchingDatasets, matchingDatasets]
    split
    · rw [List.cons_append, ih]
    · exact ih

theorem matchingDatasets_singleton_pos (d : DatasetRec) (a p proj : String)
    (h : d.analysis_type = a ∧ d.source_file_path = p ∧
      ∃ s ∈ d.samples, s.individual.project = proj) :
    matchingDatasets [d] a p proj = [d] := by
  rw [matchingDatasets, if_pos h]
  rfl

theorem matchingDatasets_single_decomp (a p proj : String) :
    ∀ (l : List DatasetRec) (d : DatasetRec), matchingDatasets l a p proj = [d] →
      ∃ l1 l2, l = l1 ++ d :: l2 ∧ matchingDatasets l1 a p proj = [] ∧
        matchingDatasets l2 a p proj = [] ∧
        (d.analysis_type = a ∧ d.source_file_path = p ∧
          ∃ s ∈ d.samples, s.individual.project = proj) := by
  intro l
  induction l with
  | nil => intro d h; exact absurd h (by simp [matchingDatasets])
  | cons x rest ih =>
    intro d h
    rw [matchingDatasets] at h
    split at h
    next hx =>
      injection h with h1 h2
      subst h1
      exact ⟨[], rest, rfl, rfl, h2, hx⟩
    next hx =>
      obtain ⟨l1, l2, hl, h1, h2, hd⟩ := ih d h
      refine ⟨x :: l1, l2, by rw [hl]; rfl, ?_, h2, hd⟩
      rw [matchingDatasets, if_neg hx, h1]

theorem setDataset_append (l1 l2 : List DatasetRec) (d' : DatasetRec) :
    setDataset (l1 ++ l2) d' = setDataset l1 d' ++ setDataset l2 d' := by
  induction l1 with
  | nil => rfl
  | cons x rest ih =>
    rw [List.cons_append, setDataset, setDataset]
    split
    · rw [List.cons_append, ih]
    · rw [List.cons_append, ih]

theorem setDataset_of_no_did (l : List DatasetRec) (d' : DatasetRec)
    (h : ∀ x ∈ l, x.did ≠ d'.did) : setDataset l d' = l := by
  induction l with
  | nil => rfl
  | cons x rest ih =>
    rw [setDataset, if_neg (h x (List.mem_cons_self _ _))]
    rw [ih (fun y hy => h y (List.mem_cons_of_mem _ hy))]

theorem did_unique_of_nodup (l1 l2 : List DatasetRec) (d : DatasetRec)
    (h : ((l1 ++ d :: l2).map (·.did)).Nodup) :
    (∀ x ∈ l1, x.did ≠ d.did) ∧ (∀ x ∈ l2, x.did ≠ d.did) := by
  rw [List.map_append, List.map_cons, List.nodup_append] at h
  obtain ⟨-, h2, hdisj⟩ := h
  rw [List.nodup_cons] at h2
  constructor
  · intro x hx he
    exact hdisj (List.mem_map_of_mem _ hx) (by rw [he]; exact List.mem_cons_self _ _)
  · intro x hx he
    exact h2.1 (by rw [← he]; exact List.mem_map_of_mem _ hx)

theorem mem_addSample_self (acc : List SampleRecord) (s : SampleRecord) :
    s ∈ addSample acc s := by
  rw [addSample]
  split
  next h => exact h
  next => exact List.mem_append_right _ (List.mem_singleton.mpr rfl)

theorem mem_addSample_of_mem (acc : List SampleRecord) (s x : SampleRecord) (h : x ∈ acc) :
    x ∈ addSample acc s := by
  rw [addSample]
  split
  · exact h
  · exact List.mem_append_left _ h

theorem addSample_of_mem (acc : List SampleRecord) (s : SampleRecord) (h : s ∈ acc) :
    addSample acc s = acc := by
  rw [addSample, if_pos h]

theorem addSample_nodup (acc : List SampleRecord) (s : SampleRecord) (h : acc.Nodup) :
    (addSample acc s).Nodup := by
  rw [addSample]
  split
  · exact h
  next hs =>
    rw [List.nodup_append]
    exact ⟨h, List.nodup_singleton s, by rw [List.disjoint_singleton]; exact hs⟩

theorem mem_linkAll_of_mem (mapping : List (String × SampleRecord)) :
    ∀ (acc : List SampleRecord) (x : SampleRecord), x ∈ acc → x ∈ linkAll mapping acc := by
  induction mapping with
  | nil => exact fun acc x h => h
  | cons q rest ih =>
    intro acc x h
    rw [linkAll]
    exact ih _ x (mem_addSample_of_mem acc q.2 x h)

theorem mem_linkAll_of_pair (mapping : List (String × SampleRecord)) :
    ∀ (acc : List SampleRecord) (q : String × SampleRecord), q ∈ mapping →
      q.2 ∈ linkAll mapping acc := by
  induction mapping with
  | nil => intro acc q h; exact absurd h (List.not_mem_nil q)
  | cons q0 rest ih =>
    intro acc q h
    rcases List.mem_cons.mp h with h | h
    · subst h
      rw [linkAll]
      exact mem_linkAll_of_mem rest _ q.2 (mem_addSample_self acc q.2)
    · rw [linkAll]
      exact ih _ q h

theorem linkAll_eq_self (mapping : List (String × SampleRecord)) :
    ∀ (acc : List SampleRecord), (∀ q ∈ mapping, q.2 ∈ acc) → linkAll mapping acc = acc := by
  induction mapping with
  | nil => exact fun acc _ => rfl
  | cons q0 rest ih =>
    intro acc h
    rw [linkAll, addSample_of_mem acc q0.2 (h q0 (List.mem_cons_self _ _))]
    exact ih acc (fun q hq => h q (List.mem_cons_of_mem _ hq))

theorem linkAll_nodup (mapping : List (String × SampleRecord)) :
    ∀ (acc : List SampleRecord), acc.Nodup → (linkAll mapping acc).Nodup := by
  induction mapping with
  | nil => exact fun acc h => h
  | cons q0 rest ih =>
    intro acc h
    rw [linkAll]
    exact ih _ (addSample_nodup acc q0.2 h)

theorem setDataset_decomp (l1 l2 : List DatasetRec) (d d' : DatasetRec)
    (hdd : d'.did = d.did)
    (hd1 : ∀ x ∈ l1, x.did ≠ d.did) (hd2 : ∀ x ∈ l2, x.did ≠ d.did) :
    setDataset (l1 ++ d :: l2) d' = l1 ++ d' :: l2 := by
  rw [setDataset_append,
    setDataset_of_no_did l1 d' (fun x hx he => hd1 x hx (he.trans hdd)),
    setDataset, if_pos hdd.symm,
    setDataset_of_no_did l2 d' (fun x hx he => hd2 x hx (he.trans hdd))]

/-- A linker run from a state whose unique matching dataset already holds
every mapped sample, and which the store update leaves untouched, returns
the state unchanged. -/
theorem linkDataset_stable (st1 : DBState) (analysisType path project : String)
    (mapping : List (String × SampleRecord)) (e : DatasetRec)
    (hM : matchingDatasets st1.datasets analysisType path project = [e])
    (hsub : ∀ q ∈ mapping, q.2 ∈ e.samples)
    (hset : setDataset st1.datasets e = st1.datasets) :
    linkDataset st1 analysisType path project mapping = .ok st1 := by
  simp only [linkDataset, getDataset, hM]
  split
  · rfl
  · simp only [linkPart2, getDataset, hM]
    split
    · rw [linkAll_eq_self mapping e.samples hsub]
      have he : ({ e with samples := e.samples } : DatasetRec) = e := rfl
      rw [he, hset]
    · rfl

/-! ## Claim theorem: idempotent dataset linking -/

/-- C8: with a well-formed store (at most one dataset row matches the
`(analysis_type, source path, project)` identity, primary keys are unique
and below the allocator, sample links are duplicate-free) and a mapping
whose samples belong to the project, (1) the linker succeeds and running it
a second time returns the first run's state unchanged — so no duplicate
dataset rows and no duplicate sample links arise — and (2) when the
matching dataset already exists, `is_loaded` is set, and every mapped id is
already linked, the very first run already performs no action. -/
theorem c8_link_dataset_idempotent
    (st : DBState) (analysisType path project : String)
    (mapping : List (String × SampleRecord))
    (hproj : ∀ q ∈ mapping, q.2.individual.project = project)
    (hone : (matchingDatasets st.datasets analysisType path project).length ≤ 1)
    (hdid : (st.datasets.map (·.did)).Nodup)
    (hfresh : ∀ d ∈ st.datasets, d.did < st.nextId)
    (hnodup : ∀ d ∈ st.datasets, d.samples.Nodup) :
    (∃ st1, linkDataset st analysisType path project mapping = .ok st1 ∧
      linkDataset st1 analysisType path project mapping = .ok st1 ∧
      ∀ d ∈ st1.datasets, d.samples.Nodup) ∧
    (∀ d, matchingDatasets st.datasets analysisType path project = [d] →
      d.is_loaded = true →
      (∀ k ∈ mapping.map (·.1), k ∈ d.samples.map (·.sample_id)) →
      linkDataset st analysisType path project mapping = .ok st) := by
  rcases hM : matchingDatasets st.datasets analysisType path project with - | ⟨d, drest⟩
  case nil =>
    constructor
    · rcases mapping with - | ⟨q, qs⟩
      case nil =>
        have hrun : linkDataset st analysisType path project [] = .ok st := by
          simp only [linkDataset, getDataset, hM, linkPart2]
          rfl
        exact ⟨st, hrun, hrun, hnodup⟩
      case cons =>
        refine ⟨⟨st.datasets ++ [⟨st.nextId, analysisType, path, false,
          linkAll (q :: qs) []⟩], st.nextId + 1⟩, ?_, ?_, ?_⟩
        · simp only [linkDataset, getDataset, hM, linkPart2]
          rw [if_pos (by simp)]
        · apply linkDataset_stable _ _ _ _ _
            ⟨st.nextId, analysisType, path, false, linkAll (q :: qs) []⟩
          · show matchingDatasets (st.datasets ++ _) _ _ _ = _
            rw [matchingDatasets_append, hM,
              matchingDatasets_singleton_pos _ _ _ _
                ⟨rfl, rfl, q.2,
                  mem_linkAll_of_pair (q :: qs) [] q (List.mem_cons_self _ _),
                  hproj q (List.mem_cons_self _ _)⟩]
            rfl
          · exact fun r hr => mem_linkAll_of_pair (q :: qs) [] r hr
          · show setDataset (st.datasets ++ _) _ = _
            rw [setDataset_append,
              setDataset_of_no_did st.datasets _
                (fun x hx he => absurd (he ▸ hfresh x hx) (lt_irrefl _)),
              setDataset, if_pos rfl]
            rfl
        · intro dd hdd
          rcases List.mem_append.mp hdd with h | h
          · exact hnodup dd h
          · rw [List.mem_singleton.mp h]
            exact linkAll_nodup (q :: qs) [] List.nodup_nil
    · intro e hMe
      exact absurd hMe (by simp)
  case cons =>
    rcases drest with - | ⟨d2, drest2⟩
    case cons =>
      rw [hM] at hone
      simp at hone
    case nil =>
      constructor
      · by_cases hcond : d.is_loaded = true ∧
            ∀ k ∈ mapping.map (·.1), k ∈ d.samples.map (·.sample_id)
        · have hrun : linkDataset st analysisType path project mapping = .ok st := by
            simp only [linkDataset, getDataset, hM]
            rw [if_pos hcond]
          exact ⟨st, hrun, hrun, hnodup⟩
        · rcases mapping with - | ⟨q, qs⟩
          · have hrun : linkDataset st analysisType path project [] = .ok st := by
              simp only [linkDataset, getDataset, hM]
              rw [if_neg hcond]
              simp only [linkPart2, getDataset, hM]
              rfl
            exact ⟨st, hrun, hrun, hnodup⟩
          · obtain ⟨l1, l2, hl, hn1, hn2, hdprops⟩ :=
              matchingDatasets_single_decomp analysisType path project st.datasets d hM
            have hdid' := hdid
            rw [hl] at hdid'
            obtain ⟨hd1, hd2⟩ := did_unique_of_nodup l1 l2 d hdid'
            have hset1 : setDataset st.datasets
                ({ d with samples := linkAll (q :: qs) d.samples }) =
                l1 ++ ({ d with samples := linkAll (q :: qs) d.samples }) :: l2 := by
              rw [hl]
              exact setDataset_decomp l1 l2 d _ rfl hd1 hd2
            refine ⟨⟨l1 ++ ({ d with samples := linkAll (q :: qs) d.samples }) :: l2,
              st.nextId⟩, ?_, ?_, ?_⟩
            · simp only [linkDataset, getDataset, hM]
              rw [if_neg hcond]
              simp only [linkPart2, getDataset, hM]
              rw [if_pos (by simp), hset1]
            · have hM2 : matchingDatasets
                  (l1 ++ ({ d with samples := linkAll (q :: qs) d.samples }) :: l2)
                  analysisType path project =
                  [({ d with samples := linkAll (q :: qs) d.samples })] := by
                rw [matchingDatasets_append, hn1, matchingDatasets,
                  if_pos ⟨hdprops.1, hdprops.2.1, q.2,
                    mem_linkAll_of_pair (q :: qs) d.samples q (List.mem_cons_self _ _),
                    hproj q (List.mem_cons_self _ _)⟩, hn2]
                rfl
              apply linkDataset_stable _ _ _ _ _
                ({ d with samples := linkAll (q :: qs) d.samples }) hM2
              · exact fun r hr => mem_linkAll_of_pair (q :: qs) d.samples r hr
              · exact setDataset_decomp l1 l2
                  ({ d with samples := linkAll (q :: qs) d.samples })
                  ({ d with samples := linkAll (q :: qs) d.samples }) rfl
                  (fun x hx => hd1 x hx) (fun x hx => hd2 x hx)
            · intro dd hdd
              rw [hl] at hnodup
              rcases List.mem_append.mp hdd with h | h
              · exact hnodup dd (List.mem_append_left _ h)
              · rcases List.mem_cons.mp h with h | h
                · rw [h]
                  exact linkAll_nodup (q :: qs) d.samples
                    (hnodup d (List.mem_append_right _ (List.mem_cons_self _ _)))
                · exact hnodup dd (List.mem_append_right _ (List.mem_cons_of_mem _ h))
      · intro e hMe hload hsubk
        injection hMe with h1 h2
        subst h1
        simp only [linkDataset, getDataset, hM]
        rw [if_pos ⟨hload, hsubk⟩]

/-- C8 witness: an empty store and a one-sample mapping; the theorem's
idempotence conjunct applies. -/
theorem c8_link_dataset_idempotent_witness :
    ∃ st1, linkDataset ⟨[], 0⟩ "VARIANT_CALLS" "test.vcf" "P"
        [("X", ⟨"X", "WES", ⟨"I", "P"⟩⟩)] = .ok st1 ∧
      linkDataset st1 "VARIANT_CALLS" "test.vcf" "P"
        [("X", ⟨"X", "WES", ⟨"I", "P"⟩⟩)] = .ok st1 ∧
      ∀ d ∈ st1.datasets, d.samples.Nodup :=
  (c8_link_dataset_idempotent ⟨[], 0⟩ "VARIANT_CALLS" "test.vcf" "P"
    [("X", ⟨"X", "WES", ⟨"I", "P"⟩⟩)] (by decide) (by decide) (by decide) (by decide)
    (by decide)).1

end Seqr
